import Mathlib

/-!
Verification of a scoped dependency-injection container.

The source keeps two process-wide maps: `registrations` (scope string to a
map from dependency key to a registration record) and `singletons` (scope
string to a map from dependency key to the cached instance), plus the
reserved default scope string `"#global#"`.  The public operations are
`Service`, `ServiceFor`, `Inject` (a parameter decorator recording a
per-parameter scope override), `inject`, `replaceWith` and `destroy`.

The embedding below models JavaScript `Map`s as association lists with
`Map.get` / `Map.set` / `Map.delete` semantics, object identity by a fresh
serial number threaded through the state, and the unbounded recursion of
`inject` by an explicit fuel parameter (fuel exhaustion standing for stack
exhaustion).  Exceptions are modelled by `Except` paired with the state at
the moment of the throw, since a JavaScript exception does not roll back
the mutations already performed.
-/

/-- JS `Map.get`: first binding for the key, if any. -/
def alistGet {α β : Type} [DecidableEq α] : List (α × β) → α → Option β
  | [], _ => none
  | (a, b) :: rest, x => if a = x then some b else alistGet rest x

/-- JS `Map.set`: overwrite the binding in place, or append a new one. -/
def alistSet {α β : Type} [DecidableEq α] : List (α × β) → α → β → List (α × β)
  | [], x, y => [(x, y)]
  | (a, b) :: rest, x, y =>
    if a = x then (x, y) :: rest else (a, b) :: alistSet rest x y

/-- JS `Map.delete`: remove the bindings for the key. -/
def alistDelete {α β : Type} [DecidableEq α] : List (α × β) → α → List (α × β)
  | [], _ => []
  | (a, b) :: rest, x =>
    if a = x then alistDelete rest x else (a, b) :: alistDelete rest x

/-- A dependency key: a class object used as an identity-based map key,
carrying the display name used in the not-found message (`target.name`). -/
structure Key where
  id : Nat
  name : String
deriving DecidableEq, Repr

/-- A runtime instance.  `obj serial ctorId args` is the object returned by
running constructor `ctorId` on the resolved dependencies `args`; `serial`
is a globally fresh number standing for the object's reference identity. -/
inductive Value where
  | obj (serial : Nat) (ctorId : Nat) (args : List Value)

/-- Reference identity of an instance. -/
def Value.serial : Value → Nat
  | .obj n _ _ => n

/-- The shape of a stored creator, as discriminated at the construction
step: a constructor function (`typeof creator === "function" &&
creator.prototype`), or the zero-argument arrow factory `() => v` produced
by `replaceWith` when handed a ready-made instance (an arrow function has
no `prototype`, so it takes the factory branch and returns `v`). -/
inductive CreatorKind where
  | ctor (id : Nat)
  | wrap (v : Value)

/-- A creator together with its reflection metadata: `params` models
`design:paramtypes` and `overrides` models the sparse `di:keys` record
written by the `Inject` decorator. -/
structure Creator where
  kind : CreatorKind
  params : List Key
  overrides : List (Nat × String)

/-- A registration record `{ creator, isSingleton }`. -/
structure Registration where
  creator : Creator
  isSingleton : Bool

/-- A concrete class: its own identity key plus constructor metadata. -/
structure ConcreteClass where
  key : Key
  params : List Key
  overrides : List (Nat × String)

/-- The creator stored for a concrete class: a constructor function whose
identity is the class itself. -/
def creatorOf (cls : ConcreteClass) : Creator :=
  { kind := CreatorKind.ctor cls.key.id
    params := cls.params
    overrides := cls.overrides }

abbrev RegMap := List (String × List (Key × Registration))
abbrev CacheMap := List (String × List (Key × Value))

/-- The module-level mutable state: the `registrations` map, the
`singletons` cache and the fresh-serial counter modelling allocation. -/
structure DIState where
  registrations : RegMap
  singletons : CacheMap
  fresh : Nat

def emptyState : DIState := { registrations := [], singletons := [], fresh := 0 }

/-- The reserved default scope string. -/
def globalIdentifier : String := "#global#"

/-- Errors thrown by `inject`: the not-found message, or stack exhaustion
(modelled as running out of fuel). -/
inductive DIError where
  | notFound (msg : String)
  | outOfFuel
deriving DecidableEq, Repr

/-- `registrations.get(key)?.get(target)`. -/
def regOfR (R : RegMap) (k : String) (t : Key) : Option Registration :=
  match alistGet R k with
  | none => none
  | some m => alistGet m t

def regOf (s : DIState) (k : String) (t : Key) : Option Registration :=
  regOfR s.registrations k t

/-- `singletons.get(key)?.get(target)`. -/
def cached (s : DIState) (k : String) (t : Key) : Option Value :=
  match alistGet s.singletons k with
  | none => none
  | some m => alistGet m t

/-- `registerCreator`: store `{ creator, isSingleton }` for the target in
the scope's registration map, creating the scope map if absent. -/
def registerCreator (s : DIState) (abstractTarget : Key) (concreteCreator : Creator)
    (key : String) (isSingleton : Bool) : DIState :=
  let creators := (alistGet s.registrations key).getD []
  let entry : Registration := { creator := concreteCreator, isSingleton := isSingleton }
  { s with registrations := alistSet s.registrations key (alistSet creators abstractTarget entry) }

/-- The `Inject(key)` parameter decorator: record the scope override for
the given constructor parameter index on the class metadata. -/
def Inject (key : String) (parameterIndex : Nat) (cls : ConcreteClass) : ConcreteClass :=
  { cls with overrides := alistSet cls.overrides parameterIndex key }

/-- The `Service(key)` class decorator: self-registration of the concrete
class, singleton iff the scope equals the default scope. -/
def Service (s : DIState) (cls : ConcreteClass)
    (key : String := globalIdentifier) : DIState :=
  registerCreator s cls.key (creatorOf cls) key (key == globalIdentifier)

/-- The `ServiceFor(abstractTarget, key)` class decorator: register the
concrete class against the abstract key. -/
def ServiceFor (s : DIState) (abstractTarget : Key) (cls : ConcreteClass)
    (key : String := globalIdentifier) : DIState :=
  registerCreator s abstractTarget (creatorOf cls) key (key == globalIdentifier)

/-- `scopedKeys[index] || key`: the per-parameter override when declared
and truthy (a non-empty string), otherwise the ambient scope. -/
def effScope (overrides : List (Nat × String)) (i : Nat) (ambient : String) : String :=
  match alistGet overrides i with
  | some sc => if sc = "" then ambient else sc
  | none => ambient

/-- The (dependency key, effective scope) list a creator's constructor
parameters resolve against, under a given ambient scope. -/
def depSlots (c : Creator) (ambient : String) : List (Key × String) :=
  c.params.enum.map (fun p => (p.2, effScope c.overrides p.1 ambient))

/-- Lines 108-112 of the source: make sure the scope's instance bucket
exists, creating an empty one if absent. -/
def ensureBucket (s : DIState) (k : String) : DIState :=
  match alistGet s.singletons k with
  | none => { s with singletons := alistSet s.singletons k [] }
  | some _ => s

/-- Line 132 of the source: store the constructed instance in the scope's
(existing) bucket. -/
def storeInstance (s : DIState) (k : String) (t : Key) (v : Value) : DIState :=
  let instances := (alistGet s.singletons k).getD []
  { s with singletons := alistSet s.singletons k (alistSet instances t v) }

/-- Invoke the creator on the resolved dependencies: a constructor
allocates a fresh object, the wrapping factory returns its fixed value. -/
def construct (s : DIState) (c : Creator) (args : List Value) : Value × DIState :=
  match c.kind with
  | .ctor id => (Value.obj s.fresh id args, { s with fresh := s.fresh + 1 })
  | .wrap v => (v, s)

/-- `constructorParams.map((param, index) => inject(param, paramKey))`:
resolve each dependency slot in order, threading the state and aborting at
the first thrown error (the state of the throw is kept, as in JS). -/
def resolveDeps (g : DIState → Key → String → Except DIError Value × DIState) :
    DIState → List (Key × String) → Except DIError (List Value) × DIState
  | s, [] => (.ok [], s)
  | s, (t, k) :: rest =>
    match g s t k with
    | (.ok v, s₁) =>
      match resolveDeps g s₁ rest with
      | (.ok vs, s₂) => (.ok (v :: vs), s₂)
      | (.error e, s₂) => (.error e, s₂)
    | (.error e, s₁) => (.error e, s₁)

/-- One unfolding of `inject`, with `g` standing for the recursive call
used on the dependencies.  This mirrors the source line by line: registry
lookup first (throwing the not-found message if absent), then
bucket creation, then the cache check, then recursive resolution of the
dependency slots, construction, and the cache store. -/
def injectStep (g : DIState → Key → String → Except DIError Value × DIState)
    (s : DIState) (target : Key) (key : String) : Except DIError Value × DIState :=
  match regOf s key target with
  | none =>
    (.error (.notFound ("Dependency not found for type: " ++ target.name ++
      " in key: " ++ key)), s)
  | some registration =>
    let s₁ := ensureBucket s key
    match cached s₁ key target with
    | some instance₀ => (.ok instance₀, s₁)
    | none =>
      match resolveDeps g s₁ (depSlots registration.creator key) with
      | (.error e, s₂) => (.error e, s₂)
      | (.ok dependencies, s₂) =>
        match construct s₂ registration.creator dependencies with
        | (instance₁, s₃) => (.ok instance₁, storeInstance s₃ key target instance₁)

/-- `inject(target, key)`, with fuel bounding the recursion depth. -/
def inject : Nat → DIState → Key → String → Except DIError Value × DIState
  | 0 => fun s _ _ => (.error .outOfFuel, s)
  | f + 1 => injectStep (inject f)

/-- `destroy(target, key)`: drop the cached instance, pruning the scope's
bucket when it ends up empty. -/
def destroy (s : DIState) (target : Key) (key : String := globalIdentifier) : DIState :=
  match alistGet s.singletons key with
  | none => s
  | some m =>
    let m' := alistDelete m target
    if m'.length < 1 then { s with singletons := alistDelete s.singletons key }
    else { s with singletons := alistSet s.singletons key m' }

/-- The second argument of `replaceWith`: a concrete class, or a
ready-made instance (`typeof concreteCreator !== "function"`). -/
inductive ReplaceArg where
  | producer (cls : ConcreteClass)
  | inst (v : Value)

/-- The creator `replaceWith` registers for its argument: the class's own
constructor, or the instance wrapped as the zero-argument factory. -/
def argCreator : ReplaceArg → Creator
  | .producer cls => creatorOf cls
  | .inst v => { kind := CreatorKind.wrap v, params := [], overrides := [] }

/-- `replaceWith(abstractTarget, concreteCreator, key)`: destroy the
cached slot, re-register (always with `isSingleton = true`), and, only
when the scope still has an instance bucket, eagerly inject and store the
result.  The eager inject may throw, in which case the exception
propagates with the state at the throw. -/
def replaceWith (f : Nat) (s : DIState) (abstractTarget : Key)
    (concreteCreator : ReplaceArg) (key : String := globalIdentifier) :
    Except DIError Unit × DIState :=
  let s₁ := destroy s abstractTarget key
  let s₂ := registerCreator s₁ abstractTarget (argCreator concreteCreator) key true
  match alistGet s₂.singletons key with
  | none => (.ok (), s₂)
  | some _ =>
    match inject f s₂ abstractTarget key with
    | (.ok v, s₃) => (.ok (), storeInstance s₃ key abstractTarget v)
    | (.error e, s₃) => (.error e, s₃)

/-- `builtFrom c v`: the instance `v` is an output of the creator `c` — an
object allocated by its constructor, or the wrapped ready-made instance. -/
def builtFrom (c : Creator) (v : Value) : Prop :=
  match c.kind with
  | .ctor id => ∃ n args, v = Value.obj n id args
  | .wrap w => v = w

/-- Invariant of the slot `(K, σ)`: its registration is `{ creator := c,
isSingleton := true }` and any cached instance for it was built from `c`. -/
def slotOK (c : Creator) (K : Key) (σ : String) (s : DIState) : Prop :=
  regOf s σ K = some { creator := c, isSingleton := true } ∧
  ∀ v, cached s σ K = some v → builtFrom c v

/-- The effective dependency slots of a slot, read off a fixed
registration map (`inject` never mutates registrations, so the dependency
graph is fixed during a resolution). -/
def effDepsOf (R : RegMap) (X : Key × String) : List (Key × String) :=
  match regOfR R X.2 X.1 with
  | none => []
  | some r => depSlots r.creator X.2

/-- `chain R cur A` says `A` is a call-stack of in-flight resolutions
ending at `cur`: the head's effective dependencies contain `cur`, and so
on up the stack. -/
def chain (R : RegMap) : Key × String → List (Key × String) → Prop
  | _, [] => True
  | cur, X :: A => cur ∈ effDepsOf R X ∧ chain R X A

/-- The induction statement showing that a resolution nested inside an
in-flight, still-uncached chain of slots can only error, and that a failing
`inject` leaves its own slot uncached: for any ancestor stack `A` (all
uncached), an inject of a slot already on the stack must error, the stack
stays uncached, and an erroring inject leaves its own uncached slot
uncached. -/
def MainProp (f : Nat) : Prop :=
  ∀ (R : RegMap) (A : List (Key × String)) (s : DIState) (t : Key) (k : String)
    (res : Except DIError Value) (s' : DIState),
    s.registrations = R → chain R (t, k) A →
    (∀ X ∈ A, cached s X.2 X.1 = none) →
    inject f s t k = (res, s') →
    (∀ X ∈ A, cached s' X.2 X.1 = none) ∧
    ((t, k) ∈ A → ∃ e, res = .error e) ∧
    (∀ e, res = .error e → cached s k t = none → cached s' k t = none)

/-- A public operation performed on the container after a `replaceWith`:
an injection, a destroy, or a raw registration. -/
inductive Op where
  | inj (f : Nat) (t : Key) (k : String)
  | des (t : Key) (k : String)
  | reg (t : Key) (c : Creator) (k : String) (b : Bool)

def applyOp (s : DIState) : Op → DIState
  | .inj f t k => (inject f s t k).2
  | .des t k => destroy s t k
  | .reg t c k b => registerCreator s t c k b

def runOps (s : DIState) (ops : List Op) : DIState := ops.foldl applyOp s

/-- The operation does not overwrite the registration of slot `(K, σ)`. -/
def opAvoids (K : Key) (σ : String) : Op → Prop
  | .reg t _ k _ => ¬(t = K ∧ k = σ)
  | _ => True

/-! Concrete fixtures used by the witnesses and counterexamples. -/

def keyA : Key := { id := 1, name := "A" }
def clsA : ConcreteClass := { key := keyA, params := [], overrides := [] }
def keyB : Key := { id := 2, name := "B" }
def clsB : ConcreteClass := { key := keyB, params := [], overrides := [] }
def keyX : Key := { id := 9, name := "X" }
def keyD : Key := { id := 4, name := "D" }
def clsD : ConcreteClass := { key := keyD, params := [], overrides := [] }
def keyC : Key := { id := 5, name := "C" }
def clsC : ConcreteClass := Inject "" 0 { key := keyC, params := [keyD], overrides := [] }
def clsCb : ConcreteClass := Inject "b" 0 { key := keyC, params := [keyD], overrides := [] }
def keyP : Key := { id := 6, name := "P" }
def clsP : ConcreteClass := { key := keyP, params := [keyA, keyX], overrides := [] }

def vA : Value := Value.obj 0 1 []
def stA : DIState := Service emptyState clsA
def stA1 : DIState := (inject 1 stA keyA globalIdentifier).2
def c3state : DIState :=
  { registrations := [], singletons := [(globalIdentifier, [(keyA, vA)])], fresh := 0 }
def st4 : DIState := Service (Service emptyState clsD "") clsC "a"
def st4b : DIState := Service (Service emptyState clsD "b") clsCb "a"
def st6 : DIState :=
  (replaceWith 2 emptyState keyA (ReplaceArg.producer clsA) globalIdentifier).2
def stB6 : DIState := (inject 1 (Service emptyState clsB) keyB globalIdentifier).2
def st7 : DIState := (replaceWith 2 emptyState keyA (ReplaceArg.producer clsB) "one").2
def stBsc : DIState := Service emptyState clsB "sc"
def stBsc1 : DIState := (inject 1 stBsc keyB "sc").2
def stP : DIState := Service (Service emptyState clsA) clsP
def c8s1 : DIState := (inject 2 stP keyP globalIdentifier).2
def s10state : DIState := { registrations := [], singletons := [("s", [])], fresh := 0 }
def v4b : Value := Value.obj 1 5 [Value.obj 0 4 []]
def s4b' : DIState := (inject 2 st4b keyC "a").2
def vA6 : Value := Value.obj 0 1 []
def st6i : DIState := (inject 1 st6 keyA globalIdentifier).2
def vB0g : Value := Value.obj 0 2 []
def st6b : DIState :=
  (replaceWith 2 stB6 keyA (ReplaceArg.producer clsA) globalIdentifier).2
def vB0 : Value := Value.obj 0 2 []
def vB1 : Value := Value.obj 1 2 []
def stBsc2 : DIState := (inject 1 (destroy stBsc1 keyB "sc") keyB "sc").2

/-! ### Association-list lemmas -/

theorem alistGet_set_eq {α β : Type} [DecidableEq α] (l : List (α × β)) (a : α) (b : β) :
    alistGet (alistSet l a b) a = some b := by
  induction l with
  | nil => simp [alistGet, alistSet]
  | cons p rest ih =>
    obtain ⟨x, y⟩ := p
    by_cases h : x = a
    · simp [alistSet, h, alistGet]
    · simp [alistSet, h, alistGet, ih]

theorem alistGet_set_ne {α β : Type} [DecidableEq α] (l : List (α × β)) (a : α) (b : β)
    (x : α) (h : x ≠ a) : alistGet (alistSet l a b) x = alistGet l x := by
  have hax : a ≠ x := Ne.symm h
  induction l with
  | nil => simp [alistGet, alistSet, hax]
  | cons p rest ih =>
    obtain ⟨u, y⟩ := p
    by_cases hu : u = a
    · subst hu
      simp [alistSet, alistGet, hax]
    · simp [alistSet, hu, alistGet, ih]

theorem alistGet_delete_self {α β : Type} [DecidableEq α] (l : List (α × β)) (a : α) :
    alistGet (alistDelete l a) a = none := by
  induction l with
  | nil => simp [alistGet, alistDelete]
  | cons p rest ih =>
    obtain ⟨u, y⟩ := p
    by_cases hu : u = a
    · simp [alistDelete, hu, ih]
    · simp [alistDelete, hu, alistGet, ih]

theorem alistGet_delete_ne {α β : Type} [DecidableEq α] (l : List (α × β)) (a x : α)
    (h : x ≠ a) : alistGet (alistDelete l a) x = alistGet l x := by
  have hax : a ≠ x := Ne.symm h
  induction l with
  | nil => simp [alistDelete]
  | cons p rest ih =>
    obtain ⟨u, y⟩ := p
    by_cases hu : u = a
    · subst hu
      simp [alistDelete, alistGet, hax, ih]
    · simp [alistDelete, hu, alistGet, ih]

theorem alistSet_get_self {α β : Type} [DecidableEq α] (l : List (α × β)) (a : α) (b : β)
    (h : alistGet l a = some b) : alistSet l a b = l := by
  induction l with
  | nil => simp [alistGet] at h
  | cons p rest ih =>
    obtain ⟨u, y⟩ := p
    by_cases hu : u = a
    · subst hu
      simp [alistGet] at h
      simp [alistSet, h]
    · simp [alistGet, hu] at h
      simp [alistSet, hu, ih h]

theorem alistSet_alistSet {α β : Type} [DecidableEq α] (l : List (α × β)) (a : α) (b c : β) :
    alistSet (alistSet l a b) a c = alistSet l a c := by
  induction l with
  | nil => simp [alistSet]
  | cons p rest ih =>
    obtain ⟨u, y⟩ := p
    by_cases hu : u = a
    · simp [alistSet, hu]
    · simp [alistSet, hu, ih]

theorem alistDelete_of_get_none {α β : Type} [DecidableEq α] (l : List (α × β)) (a : α)
    (h : alistGet l a = none) : alistDelete l a = l := by
  induction l with
  | nil => rfl
  | cons p rest ih =>
    obtain ⟨u, y⟩ := p
    by_cases hu : u = a
    · simp [alistGet, hu] at h
    · simp [alistGet, hu] at h
      simp [alistDelete, hu, ih h]

theorem alistGet_of_delete_nil {α β : Type} [DecidableEq α] (l : List (α × β)) (a x : α)
    (h : alistDelete l a = []) (hx : x ≠ a) : alistGet l x = none := by
  have hax : a ≠ x := Ne.symm hx
  induction l with
  | nil => rfl
  | cons p rest ih =>
    obtain ⟨u, y⟩ := p
    by_cases hu : u = a
    · subst hu
      simp only [alistDelete, if_pos rfl] at h
      simp [alistGet, hax, ih h]
    · simp [alistDelete, hu] at h

/-! ### Small state lemmas -/

theorem regs_ensureBucket (s : DIState) (k : String) :
    (ensureBucket s k).registrations = s.registrations := by
  unfold ensureBucket
  cases alistGet s.singletons k <;> rfl

theorem fresh_ensureBucket (s : DIState) (k : String) :
    (ensureBucket s k).fresh = s.fresh := by
  unfold ensureBucket
  cases alistGet s.singletons k <;> rfl

theorem cached_ensureBucket (s : DIState) (k k' : String) (t' : Key) :
    cached (ensureBucket s k) k' t' = cached s k' t' := by
  unfold ensureBucket
  cases hb : alistGet s.singletons k with
  | some m => rfl
  | none =>
    unfold cached
    by_cases hk : k' = k
    · subst hk
      simp [alistGet_set_eq, hb, alistGet]
    · simp [alistGet_set_ne _ _ _ _ hk]

theorem ensureBucket_eq_self (s : DIState) (k : String) (m : List (Key × Value))
    (h : alistGet s.singletons k = some m) : ensureBucket s k = s := by
  unfold ensureBucket
  simp [h]

theorem regOf_eq_of_registrations (s₁ s₂ : DIState)
    (h : s₁.registrations = s₂.registrations) (k : String) (t : Key) :
    regOf s₁ k t = regOf s₂ k t := by
  unfold regOf regOfR
  rw [h]

theorem cached_eq_of_singletons (s₁ s₂ : DIState)
    (h : s₁.singletons = s₂.singletons) (k : String) (t : Key) :
    cached s₁ k t = cached s₂ k t := by
  unfold cached
  rw [h]

theorem regs_storeInstance (s : DIState) (k : String) (t : Key) (v : Value) :
    (storeInstance s k t v).registrations = s.registrations := rfl

theorem fresh_storeInstance (s : DIState) (k : String) (t : Key) (v : Value) :
    (storeInstance s k t v).fresh = s.fresh := rfl

theorem cached_storeInstance_eq (s : DIState) (k : String) (t : Key) (v : Value) :
    cached (storeInstance s k t v) k t = some v := by
  unfold storeInstance cached
  simp [alistGet_set_eq]

theorem cached_storeInstance_ne (s : DIState) (k k' : String) (t t' : Key) (v : Value)
    (h : ¬(t' = t ∧ k' = k)) :
    cached (storeInstance s k t v) k' t' = cached s k' t' := by
  unfold storeInstance cached
  by_cases hk : k' = k
  · subst hk
    have ht : t' ≠ t := fun h' => h ⟨h', rfl⟩
    simp only [alistGet_set_eq]
    rw [alistGet_set_ne _ _ _ _ ht]
    cases hb : alistGet s.singletons k' <;> simp [hb, alistGet]
  · simp [alistGet_set_ne _ _ _ _ hk]

theorem regs_destroy (s : DIState) (t : Key) (k : String) :
    (destroy s t k).registrations = s.registrations := by
  unfold destroy
  cases alistGet s.singletons k with
  | none => rfl
  | some m => by_cases h : (alistDelete m t).length < 1 <;> simp [h]

theorem fresh_destroy (s : DIState) (t : Key) (k : String) :
    (destroy s t k).fresh = s.fresh := by
  unfold destroy
  cases alistGet s.singletons k with
  | none => rfl
  | some m => by_cases h : (alistDelete m t).length < 1 <;> simp [h]

theorem cached_destroy_self (s : DIState) (t : Key) (k : String) :
    cached (destroy s t k) k t = none := by
  unfold destroy
  cases hb : alistGet s.singletons k with
  | none => simp [cached, hb]
  | some m =>
    by_cases h : (alistDelete m t).length < 1
    · simp only [h, if_pos]
      simp [cached, alistGet_delete_self]
    · simp only [h, if_neg, ite_false]
      simp [cached, alistGet_set_eq, alistGet_delete_self]

theorem cached_destroy_ne (s : DIState) (t t' : Key) (k k' : String)
    (h : ¬(t' = t ∧ k' = k)) : cached (destroy s t k) k' t' = cached s k' t' := by
  unfold destroy
  cases hb : alistGet s.singletons k with
  | none => rfl
  | some m =>
    by_cases hk : k' = k
    · subst hk
      have ht : t' ≠ t := fun h' => h ⟨h', rfl⟩
      by_cases hlen : (alistDelete m t).length < 1
      · simp only [hlen, if_pos]
        have hnil : alistDelete m t = [] := by
          cases hd : alistDelete m t with
          | nil => rfl
          | cons a l => rw [hd] at hlen; simp at hlen
        have : alistGet m t' = none := alistGet_of_delete_nil m t t' hnil ht
        simp [cached, alistGet_delete_self, hb, this]
      · simp only [hlen, if_neg, ite_false]
        simp [cached, alistGet_set_eq, hb, alistGet_delete_ne m t t' ht]
    · by_cases hlen : (alistDelete m t).length < 1
      · simp only [hlen, if_pos]
        simp [cached, alistGet_delete_ne _ _ _ hk]
      · simp only [hlen, if_neg, ite_false]
        simp [cached, alistGet_set_ne _ _ _ _ hk]

theorem cached_destroy_cases (s : DIState) (t t' : Key) (k k' : String) :
    cached (destroy s t k) k' t' = cached s k' t' ∨ cached (destroy s t k) k' t' = none := by
  by_cases h : t' = t ∧ k' = k
  · obtain ⟨h1, h2⟩ := h
    subst h1; subst h2
    exact Or.inr (cached_destroy_self s t' k')
  · exact Or.inl (cached_destroy_ne s t t' k k' h)

theorem singletons_registerCreator (s : DIState) (t : Key) (c : Creator) (k : String)
    (b : Bool) : (registerCreator s t c k b).singletons = s.singletons := rfl

theorem fresh_registerCreator (s : DIState) (t : Key) (c : Creator) (k : String)
    (b : Bool) : (registerCreator s t c k b).fresh = s.fresh := rfl

theorem regOf_registerCreator_eq (s : DIState) (t : Key) (c : Creator) (k : String)
    (b : Bool) : regOf (registerCreator s t c k b) k t =
      some { creator := c, isSingleton := b } := by
  unfold registerCreator regOf regOfR
  simp [alistGet_set_eq]

theorem regOf_registerCreator_ne (s : DIState) (t t' : Key) (c : Creator) (k k' : String)
    (b : Bool) (h : ¬(t' = t ∧ k' = k)) :
    regOf (registerCreator s t c k b) k' t' = regOf s k' t' := by
  unfold registerCreator regOf regOfR
  by_cases hk : k' = k
  · subst hk
    have ht : t' ≠ t := fun h' => h ⟨h', rfl⟩
    simp only [alistGet_set_eq]
    rw [alistGet_set_ne _ _ _ _ ht]
    cases hb : alistGet s.registrations k' <;> simp [hb, alistGet]
  · simp [alistGet_set_ne _ _ _ _ hk]

/-! ### Basic facts about `construct`, `resolveDeps` and `inject` -/

theorem inject_zero (s : DIState) (t : Key) (k : String) :
    inject 0 s t k = (.error .outOfFuel, s) := rfl

theorem inject_succ (f : Nat) (s : DIState) (t : Key) (k : String) :
    inject (f + 1) s t k = injectStep (inject f) s t k := rfl

theorem construct_regs (s : DIState) (c : Creator) (a : List Value) :
    ((construct s c a).2).registrations = s.registrations := by
  unfold construct; cases c.kind <;> rfl

theorem construct_singletons (s : DIState) (c : Creator) (a : List Value) :
    ((construct s c a).2).singletons = s.singletons := by
  unfold construct; cases c.kind <;> rfl

theorem construct_fresh_le (s : DIState) (c : Creator) (a : List Value) :
    s.fresh ≤ ((construct s c a).2).fresh := by
  unfold construct; cases c.kind <;> simp

theorem construct_builtFrom (s : DIState) (c : Creator) (a : List Value) :
    builtFrom c (construct s c a).1 := by
  unfold construct builtFrom
  cases c.kind with
  | ctor id => exact ⟨s.fresh, a, rfl⟩
  | wrap v => rfl

theorem resolveDeps_basic
    (g : DIState → Key → String → Except DIError Value × DIState)
    (hg : ∀ s t k, ((g s t k).2).registrations = s.registrations ∧
      s.fresh ≤ ((g s t k).2).fresh ∧
      ∀ k' t' v, cached s k' t' = some v → cached ((g s t k).2) k' t' = some v) :
    ∀ L s, ((resolveDeps g s L).2).registrations = s.registrations ∧
      s.fresh ≤ ((resolveDeps g s L).2).fresh ∧
      ∀ k' t' v, cached s k' t' = some v → cached ((resolveDeps g s L).2) k' t' = some v := by
  intro L
  induction L with
  | nil => intro s; exact ⟨rfl, le_refl _, fun _ _ _ h => h⟩
  | cons p rest ih =>
    intro s
    obtain ⟨t, k⟩ := p
    rcases hg1 : g s t k with ⟨r1, s1⟩
    have hgs := hg s t k
    rw [hg1] at hgs
    cases r1 with
    | error e =>
      simp only [resolveDeps, hg1]
      exact hgs
    | ok v =>
      rcases hr : resolveDeps g s1 rest with ⟨r2, s2⟩
      have hrs := ih s1
      rw [hr] at hrs
      cases r2 with
      | error e =>
        simp only [resolveDeps, hg1, hr]
        exact ⟨hrs.1.trans hgs.1, hgs.2.1.trans hrs.2.1,
          fun k' t' w hw => hrs.2.2 k' t' w (hgs.2.2 k' t' w hw)⟩
      | ok vs =>
        simp only [resolveDeps, hg1, hr]
        exact ⟨hrs.1.trans hgs.1, hgs.2.1.trans hrs.2.1,
          fun k' t' w hw => hrs.2.2 k' t' w (hgs.2.2 k' t' w hw)⟩

theorem inject_basic : ∀ (f : Nat) (s : DIState) (t : Key) (k : String),
    ((inject f s t k).2).registrations = s.registrations ∧
    s.fresh ≤ ((inject f s t k).2).fresh ∧
    ∀ k' t' v, cached s k' t' = some v → cached ((inject f s t k).2) k' t' = some v := by
  intro f
  induction f with
  | zero => intro s t k; exact ⟨rfl, le_refl _, fun _ _ _ h => h⟩
  | succ f ih =>
    intro s t k
    rw [inject_succ]
    unfold injectStep
    cases hreg : regOf s k t with
    | none => exact ⟨rfl, le_refl _, fun _ _ _ h => h⟩
    | some r =>
      simp only
      have hens : ∀ k' t' v, cached s k' t' = some v →
          cached (ensureBucket s k) k' t' = some v := by
        intro k' t' v hv
        rw [cached_ensureBucket]; exact hv
      cases hc : cached (ensureBucket s k) k t with
      | some v =>
        simp only [hc]
        exact ⟨regs_ensureBucket s k, le_of_eq (fresh_ensureBucket s k).symm, hens⟩
      | none =>
        simp only [hc]
        rcases hr : resolveDeps (inject f) (ensureBucket s k) (depSlots r.creator k)
          with ⟨r2, s2⟩
        have hrs := resolveDeps_basic (inject f) ih (depSlots r.creator k) (ensureBucket s k)
        rw [hr] at hrs
        cases r2 with
        | error e =>
          simp only
          refine ⟨hrs.1.trans (regs_ensureBucket s k), ?_, ?_⟩
          · rw [← fresh_ensureBucket s k]; exact hrs.2.1
          · intro k' t' v hv
            exact hrs.2.2 k' t' v (hens k' t' v hv)
        | ok vs =>
          rcases hcon : construct s2 r.creator vs with ⟨v₁, s3⟩
          simp only [hcon]
          have hcr : s3.registrations = s2.registrations := by
            have := construct_regs s2 r.creator vs
            rw [hcon] at this; exact this
          have hcs : s3.singletons = s2.singletons := by
            have := construct_singletons s2 r.creator vs
            rw [hcon] at this; exact this
          have hcf : s2.fresh ≤ s3.fresh := by
            have := construct_fresh_le s2 r.creator vs
            rw [hcon] at this; exact this
          refine ⟨?_, ?_, ?_⟩
          · rw [regs_storeInstance, hcr, hrs.1, regs_ensureBucket]
          · rw [fresh_storeInstance]
            calc s.fresh = (ensureBucket s k).fresh := (fresh_ensureBucket s k).symm
              _ ≤ s2.fresh := hrs.2.1
              _ ≤ s3.fresh := hcf
          · intro k' t' v hv
            have h2 : cached s2 k' t' = some v := hrs.2.2 k' t' v (hens k' t' v hv)
            have h3 : cached s3 k' t' = some v := by
              rw [cached_eq_of_singletons s3 s2 hcs]; exact h2
            by_cases hsame : t' = t ∧ k' = k
            · obtain ⟨h4, h5⟩ := hsame
              subst h4; subst h5
              rw [cached_ensureBucket] at hc
              rw [hc] at hv
              exact absurd hv (by simp)
            · rw [cached_storeInstance_ne s3 k k' t t' v₁ hsame]
              exact h3

theorem bucket_exists_of_cached (s : DIState) (k : String) (t : Key) (v : Value)
    (h : cached s k t = some v) : ∃ m, alistGet s.singletons k = some m := by
  unfold cached at h
  cases hb : alistGet s.singletons k with
  | none => rw [hb] at h; cases h
  | some m => exact ⟨m, rfl⟩

theorem inject_cache_hit (f : Nat) (s : DIState) (t : Key) (k : String) (r : Registration)
    (v : Value) (hreg : regOf s k t = some r) (hv : cached s k t = some v) :
    inject (f + 1) s t k = (.ok v, s) := by
  obtain ⟨m, hm⟩ := bucket_exists_of_cached s k t v hv
  have hens : ensureBucket s k = s := ensureBucket_eq_self s k m hm
  rw [inject_succ]
  unfold injectStep
  simp only [hreg, hens, hv]

theorem inject_success_caches (f : Nat) (s : DIState) (t : Key) (k : String) (v : Value)
    (s' : DIState) (h : inject f s t k = (.ok v, s')) : cached s' k t = some v := by
  cases f with
  | zero => cases h
  | succ f =>
    rw [inject_succ] at h
    unfold injectStep at h
    cases hreg : regOf s k t with
    | none => rw [hreg] at h; cases h
    | some r =>
      rw [hreg] at h
      simp only at h
      cases hc : cached (ensureBucket s k) k t with
      | some v₀ =>
        rw [hc] at h
        simp only at h
        obtain ⟨hv, hs⟩ := Prod.mk.injEq .. ▸ h
        cases hv
        rw [← hs]
        exact hc
      | none =>
        rw [hc] at h
        simp only at h
        rcases hr : resolveDeps (inject f) (ensureBucket s k) (depSlots r.creator k)
          with ⟨r2, s2⟩
        rw [hr] at h
        cases r2 with
        | error e => cases h
        | ok vs =>
          simp only at h
          rcases hcon : construct s2 r.creator vs with ⟨v₁, s3⟩
          rw [hcon] at h
          simp only at h
          obtain ⟨hv, hs⟩ := Prod.mk.injEq .. ▸ h
          cases hv
          rw [← hs]
          exact cached_storeInstance_eq s3 k t v

theorem inject_success_reg (f : Nat) (s : DIState) (t : Key) (k : String) (v : Value)
    (s' : DIState) (h : inject f s t k = (.ok v, s')) : ∃ r, regOf s k t = some r := by
  cases f with
  | zero => cases h
  | succ f =>
    rw [inject_succ] at h
    unfold injectStep at h
    cases hreg : regOf s k t with
    | none => rw [hreg] at h; cases h
    | some r => exact ⟨r, rfl⟩

theorem inject_success_built (f : Nat) (s : DIState) (t : Key) (k : String) (v : Value)
    (s' : DIState) (r : Registration) (hreg : regOf s k t = some r)
    (hcache : ∀ w, cached s k t = some w → builtFrom r.creator w)
    (h : inject f s t k = (.ok v, s')) : builtFrom r.creator v := by
  cases f with
  | zero => cases h
  | succ f =>
    rw [inject_succ] at h
    unfold injectStep at h
    rw [hreg] at h
    simp only at h
    cases hc : cached (ensureBucket s k) k t with
    | some v₀ =>
      rw [hc] at h
      simp only at h
      obtain ⟨hv, _⟩ := Prod.mk.injEq .. ▸ h
      cases hv
      rw [cached_ensureBucket] at hc
      exact hcache v hc
    | none =>
      rw [hc] at h
      simp only at h
      rcases hr : resolveDeps (inject f) (ensureBucket s k) (depSlots r.creator k)
        with ⟨r2, s2⟩
      rw [hr] at h
      cases r2 with
      | error e => cases h
      | ok vs =>
        simp only at h
        rcases hcon : construct s2 r.creator vs with ⟨v₁, s3⟩
        rw [hcon] at h
        simp only at h
        obtain ⟨hv, _⟩ := Prod.mk.injEq .. ▸ h
        cases hv
        have := construct_builtFrom s2 r.creator vs
        rw [hcon] at this
        exact this

/-! ### The in-flight chain argument -/

theorem chain_closed (R : RegMap) (c : Key × String) (A : List (Key × String))
    (hch : chain R c A) (z : Key × String) (hz : z ∈ A) :
    ∃ Y, Y ∈ effDepsOf R z ∧ Y ∈ c :: A := by
  induction A generalizing c with
  | nil => cases hz
  | cons X A' ih =>
    obtain ⟨hcur, hch'⟩ := hch
    cases hz with
    | head => exact ⟨c, hcur, List.mem_cons_self _ _⟩
    | tail _ hz' =>
      obtain ⟨Y, hY1, hY2⟩ := ih X hch' hz'
      exact ⟨Y, hY1, List.mem_cons_of_mem _ hY2⟩

theorem resolveDeps_chain (f : Nat) (ihm : MainProp f) (R : RegMap)
    (par : Key × String) (A : List (Key × String)) (hch : chain R par A) :
    ∀ (L : List (Key × String)) (s : DIState) (dres : Except DIError (List Value))
      (s₂ : DIState),
    s.registrations = R →
    (∀ X ∈ L, X ∈ effDepsOf R par) →
    (∀ X ∈ par :: A, cached s X.2 X.1 = none) →
    resolveDeps (inject f) s L = (dres, s₂) →
    (∀ X ∈ par :: A, cached s₂ X.2 X.1 = none) ∧
    (∀ vs, dres = .ok vs → ∀ X ∈ L, X ∉ par :: A) := by
  intro L
  induction L with
  | nil =>
    intro s dres s₂ _ _ hunc h
    unfold resolveDeps at h
    obtain ⟨h1, h2⟩ := Prod.mk.injEq .. ▸ h
    refine ⟨h2 ▸ hunc, ?_⟩
    intro vs _ X hX
    cases hX
  | cons d rest ih =>
    intro s dres s₂ hregs hL hunc h
    obtain ⟨td, kd⟩ := d
    rcases hg : inject f s td kd with ⟨r1, s1⟩
    have hchd : chain R (td, kd) (par :: A) :=
      ⟨hL (td, kd) (List.mem_cons_self _ _), hch⟩
    have hm := ihm R (par :: A) s td kd r1 s1 hregs hchd hunc hg
    have hregs1 : s1.registrations = R := by
      have := (inject_basic f s td kd).1
      rw [hg] at this
      rw [this]; exact hregs
    cases r1 with
    | error e =>
      unfold resolveDeps at h
      rw [hg] at h
      simp only at h
      obtain ⟨h1, h2⟩ := Prod.mk.injEq .. ▸ h
      refine ⟨h2 ▸ hm.1, ?_⟩
      intro vs hvs
      rw [← h1] at hvs
      cases hvs
    | ok v =>
      have hdnot : (td, kd) ∉ par :: A := by
        intro hmem
        obtain ⟨e, he⟩ := hm.2.1 hmem
        cases he
      rcases hrest : resolveDeps (inject f) s1 rest with ⟨r2, s₂'⟩
      have hrec := ih s1 r2 s₂' hregs1 (fun X hX => hL X (List.mem_cons_of_mem _ hX))
        hm.1 hrest
      unfold resolveDeps at h
      rw [hg] at h
      simp only at h
      rw [hrest] at h
      cases r2 with
      | error e =>
        simp only at h
        obtain ⟨h1, h2⟩ := Prod.mk.injEq .. ▸ h
        refine ⟨h2 ▸ hrec.1, ?_⟩
        intro vs hvs
        rw [← h1] at hvs
        cases hvs
      | ok vs =>
        simp only at h
        obtain ⟨h1, h2⟩ := Prod.mk.injEq .. ▸ h
        refine ⟨h2 ▸ hrec.1, ?_⟩
        intro vs' _ X hX
        cases hX with
        | head => exact hdnot
        | tail _ hX' => exact hrec.2 vs rfl X hX'

theorem main_chain : ∀ f, MainProp f := by
  intro f
  induction f with
  | zero =>
    intro R A s t k res s' _ _ hunc h
    rw [inject_zero] at h
    obtain ⟨h1, h2⟩ := Prod.mk.injEq .. ▸ h
    refine ⟨h2 ▸ hunc, fun _ => ⟨.outOfFuel, h1.symm⟩, ?_⟩
    intro e _ hnone
    rw [← h2]; exact hnone
  | succ f ih =>
    intro R A s t k res s' hregs hch hunc h
    rw [inject_succ] at h
    unfold injectStep at h
    cases hreg : regOf s k t with
    | none =>
      rw [hreg] at h
      simp only at h
      obtain ⟨h1, h2⟩ := Prod.mk.injEq .. ▸ h
      refine ⟨h2 ▸ hunc, fun _ => ⟨_, h1.symm⟩, ?_⟩
      intro e _ hnone
      rw [← h2]; exact hnone
    | some r =>
      rw [hreg] at h
      simp only at h
      cases hc : cached (ensureBucket s k) k t with
      | some v =>
        rw [hc] at h
        simp only at h
        obtain ⟨h1, h2⟩ := Prod.mk.injEq .. ▸ h
        refine ⟨?_, ?_, ?_⟩
        · intro X hX
          rw [← h2, cached_ensureBucket]
          exact hunc X hX
        · intro hmem
          have := hunc (t, k) hmem
          rw [cached_ensureBucket] at hc
          rw [this] at hc
          cases hc
        · intro e he
          rw [← h1] at he
          cases he
      | none =>
        rw [hc] at h
        simp only at h
        rcases hr : resolveDeps (inject f) (ensureBucket s k) (depSlots r.creator k)
          with ⟨dr, s₂⟩
        rw [hr] at h
        have hregsb : (ensureBucket s k).registrations = R := by
          rw [regs_ensureBucket]; exact hregs
        have hLdeps : ∀ X ∈ depSlots r.creator k, X ∈ effDepsOf R (t, k) := by
          intro X hX
          unfold effDepsOf
          have : regOfR R k t = some r := by
            rw [← hregs]; exact hreg
          rw [this]
          exact hX
        have huncb : ∀ X ∈ (t, k) :: A, cached (ensureBucket s k) X.2 X.1 = none := by
          intro X hX
          cases hX with
          | head => exact hc
          | tail _ hX' => rw [cached_ensureBucket]; exact hunc X hX'
        have haux := resolveDeps_chain f ih R (t, k) A hch (depSlots r.creator k)
          (ensureBucket s k) dr s₂ hregsb hLdeps huncb hr
        cases dr with
        | error e =>
          simp only at h
          obtain ⟨h1, h2⟩ := Prod.mk.injEq .. ▸ h
          refine ⟨?_, fun _ => ⟨e, h1.symm⟩, ?_⟩
          · intro X hX
            rw [← h2]
            exact haux.1 X (List.mem_cons_of_mem _ hX)
          · intro e' _ _
            rw [← h2]
            exact haux.1 (t, k) (List.mem_cons_self _ _)
        | ok vs =>
          simp only at h
          rcases hcon : construct s₂ r.creator vs with ⟨v₁, s₃⟩
          rw [hcon] at h
          simp only at h
          obtain ⟨h1, h2⟩ := Prod.mk.injEq .. ▸ h
          have hno_tk : (t, k) ∉ A := by
            intro hmem
            obtain ⟨Y, hY1, hY2⟩ := chain_closed R (t, k) A hch (t, k) hmem
            have : Y ∈ depSlots r.creator k := by
              unfold effDepsOf at hY1
              have hrr : regOfR R k t = some r := by
                rw [← hregs]; exact hreg
              rw [hrr] at hY1
              exact hY1
            exact haux.2 vs rfl Y this hY2
          have hs3 : s₃.singletons = s₂.singletons := by
            have := construct_singletons s₂ r.creator vs
            rw [hcon] at this; exact this
          refine ⟨?_, ?_, ?_⟩
          · intro X hX
            have hXne : ¬(X.1 = t ∧ X.2 = k) := by
              rintro ⟨hx1, hx2⟩
              apply hno_tk
              have : X = (t, k) := Prod.ext hx1 hx2
              rw [← this]; exact hX
            rw [← h2, cached_storeInstance_ne s₃ k X.2 t X.1 v₁ hXne,
              cached_eq_of_singletons s₃ s₂ hs3]
            exact haux.1 X (List.mem_cons_of_mem _ hX)
          · intro hmem
            exact absurd hmem hno_tk
          · intro e he
            rw [← h1] at he
            cases he

/-! ### Preservation of the slot invariant -/

theorem slotOK_ensureBucket (c : Creator) (K : Key) (σ : String) (s : DIState)
    (k : String) (h : slotOK c K σ s) : slotOK c K σ (ensureBucket s k) := by
  refine ⟨?_, ?_⟩
  · rw [regOf_eq_of_registrations (ensureBucket s k) s (regs_ensureBucket s k)]
    exact h.1
  · intro v hv
    rw [cached_ensureBucket] at hv
    exact h.2 v hv

theorem slotOK_destroy (c : Creator) (K : Key) (σ : String) (s : DIState)
    (t : Key) (k : String) (h : slotOK c K σ s) : slotOK c K σ (destroy s t k) := by
  refine ⟨?_, ?_⟩
  · rw [regOf_eq_of_registrations (destroy s t k) s (regs_destroy s t k)]
    exact h.1
  · intro v hv
    rcases cached_destroy_cases s t K k σ with hcase | hcase
    · rw [hcase] at hv
      exact h.2 v hv
    · rw [hcase] at hv
      cases hv

theorem slotOK_registerCreator (c : Creator) (K : Key) (σ : String) (s : DIState)
    (t : Key) (c' : Creator) (k : String) (b : Bool) (hne : ¬(t = K ∧ k = σ))
    (h : slotOK c K σ s) : slotOK c K σ (registerCreator s t c' k b) := by
  have hne' : ¬(K = t ∧ σ = k) := by
    rintro ⟨h1, h2⟩; exact hne ⟨h1.symm, h2.symm⟩
  refine ⟨?_, ?_⟩
  · rw [regOf_registerCreator_ne s t K c' k σ b hne']
    exact h.1
  · intro v hv
    rw [cached_eq_of_singletons (registerCreator s t c' k b) s
      (singletons_registerCreator s t c' k b)] at hv
    exact h.2 v hv

theorem resolveDeps_slotOK (c : Creator) (K : Key) (σ : String)
    (g : DIState → Key → String → Except DIError Value × DIState)
    (hg : ∀ s t k, slotOK c K σ s → slotOK c K σ ((g s t k).2)) :
    ∀ (L : List (Key × String)) (s : DIState),
      slotOK c K σ s → slotOK c K σ ((resolveDeps g s L).2) := by
  intro L
  induction L with
  | nil => intro s h; exact h
  | cons d rest ih =>
    intro s h
    obtain ⟨t, k⟩ := d
    rcases hgd : g s t k with ⟨r1, s1⟩
    have h1 : slotOK c K σ s1 := by
      have := hg s t k h
      rw [hgd] at this
      exact this
    cases r1 with
    | error e => simp only [resolveDeps, hgd]; exact h1
    | ok v =>
      rcases hr : resolveDeps g s1 rest with ⟨r2, s2⟩
      have h2 := ih s1 h1
      rw [hr] at h2
      cases r2 with
      | error e => simp only [resolveDeps, hgd, hr]; exact h2
      | ok vs => simp only [resolveDeps, hgd, hr]; exact h2

theorem slotOK_inject (c : Creator) (K : Key) (σ : String) :
    ∀ (f : Nat) (s : DIState) (t : Key) (k : String),
      slotOK c K σ s → slotOK c K σ ((inject f s t k).2) := by
  intro f
  induction f with
  | zero => intro s t k h; exact h
  | succ f ih =>
    intro s t k h
    rw [inject_succ]
    unfold injectStep
    cases hreg : regOf s k t with
    | none => exact h
    | some r =>
      simp only
      cases hc : cached (ensureBucket s k) k t with
      | some v => simp only [hc]; exact slotOK_ensureBucket c K σ s k h
      | none =>
        simp only [hc]
        rcases hr : resolveDeps (inject f) (ensureBucket s k) (depSlots r.creator k)
          with ⟨dr, s₂⟩
        have h2 : slotOK c K σ s₂ := by
          have := resolveDeps_slotOK c K σ (inject f) ih (depSlots r.creator k)
            (ensureBucket s k) (slotOK_ensureBucket c K σ s k h)
          rw [hr] at this
          exact this
        cases dr with
        | error e => simp only; exact h2
        | ok vs =>
          rcases hcon : construct s₂ r.creator vs with ⟨v₁, s₃⟩
          simp only [hcon]
          have hs3regs : s₃.registrations = s₂.registrations := by
            have := construct_regs s₂ r.creator vs
            rw [hcon] at this; exact this
          have hs3sing : s₃.singletons = s₂.singletons := by
            have := construct_singletons s₂ r.creator vs
            rw [hcon] at this; exact this
          have h3 : slotOK c K σ s₃ := by
            refine ⟨?_, ?_⟩
            · rw [regOf_eq_of_registrations s₃ s₂ hs3regs]; exact h2.1
            · intro v hv
              rw [cached_eq_of_singletons s₃ s₂ hs3sing] at hv
              exact h2.2 v hv
          by_cases hsame : t = K ∧ k = σ
          · obtain ⟨h4, h5⟩ := hsame
            subst h4; subst h5
            refine ⟨?_, ?_⟩
            · rw [regOf_eq_of_registrations (storeInstance s₃ k t v₁) s₃
                (regs_storeInstance s₃ k t v₁)]
              exact h3.1
            · intro v hv
              rw [cached_storeInstance_eq s₃ k t v₁] at hv
              cases hv
              have hrc : r = { creator := c, isSingleton := true } := by
                rw [h.1] at hreg
                exact (Option.some.injEq .. ▸ hreg).symm
              have := construct_builtFrom s₂ r.creator vs
              rw [hcon] at this
              rw [hrc] at this
              exact this
          · refine ⟨?_, ?_⟩
            · rw [regOf_eq_of_registrations (storeInstance s₃ k t v₁) s₃
                (regs_storeInstance s₃ k t v₁)]
              exact h3.1
            · intro v hv
              have hne : ¬(K = t ∧ σ = k) := by
                rintro ⟨h1', h2'⟩; exact hsame ⟨h1'.symm, h2'.symm⟩
              rw [cached_storeInstance_ne s₃ k σ t K v₁ hne] at hv
              exact h3.2 v hv

theorem slotOK_applyOp (c : Creator) (K : Key) (σ : String) (s : DIState) (op : Op)
    (hop : opAvoids K σ op) (h : slotOK c K σ s) : slotOK c K σ (applyOp s op) := by
  cases op with
  | inj f t k => exact slotOK_inject c K σ f s t k h
  | des t k => exact slotOK_destroy c K σ s t k h
  | reg t c' k b => exact slotOK_registerCreator c K σ s t c' k b hop h

theorem slotOK_runOps (c : Creator) (K : Key) (σ : String) :
    ∀ (ops : List Op) (s : DIState), (∀ op ∈ ops, opAvoids K σ op) →
      slotOK c K σ s → slotOK c K σ (runOps s ops) := by
  intro ops
  induction ops with
  | nil => intro s _ h; exact h
  | cons op rest ih =>
    intro s hops h
    have h1 := slotOK_applyOp c K σ s op (hops op (List.mem_cons_self _ _)) h
    exact ih (applyOp s op) (fun o ho => hops o (List.mem_cons_of_mem _ ho)) h1

theorem replaceWith_slotOK (f : Nat) (s : DIState) (K : Key) (arg : ReplaceArg)
    (σ : String) (u : Unit) (s₁ : DIState)
    (h : replaceWith f s K arg σ = (.ok u, s₁)) :
    slotOK (argCreator arg) K σ s₁ := by
  unfold replaceWith at h
  simp only at h
  have hreg0 : slotOK (argCreator arg) K σ
      (registerCreator (destroy s K σ) K (argCreator arg) σ true) := by
    refine ⟨regOf_registerCreator_eq (destroy s K σ) K (argCreator arg) σ true, ?_⟩
    intro v hv
    rw [cached_eq_of_singletons (registerCreator (destroy s K σ) K (argCreator arg) σ true)
      (destroy s K σ) (singletons_registerCreator ..)] at hv
    rw [cached_destroy_self s K σ] at hv
    cases hv
  cases hb : alistGet (registerCreator (destroy s K σ) K (argCreator arg) σ true).singletons σ with
  | none =>
    rw [hb] at h
    simp only at h
    obtain ⟨h1, h2⟩ := Prod.mk.injEq .. ▸ h
    rw [← h2]
    exact hreg0
  | some m =>
    rw [hb] at h
    simp only at h
    rcases hinj : inject f (registerCreator (destroy s K σ) K (argCreator arg) σ true) K σ
      with ⟨ri, s₃⟩
    rw [hinj] at h
    cases ri with
    | error e => cases h
    | ok v =>
      simp only at h
      obtain ⟨h1, h2⟩ := Prod.mk.injEq .. ▸ h
      have h3 : slotOK (argCreator arg) K σ s₃ := by
        have := slotOK_inject (argCreator arg) K σ f
          (registerCreator (destroy s K σ) K (argCreator arg) σ true) K σ hreg0
        rw [hinj] at this
        exact this
      have hbuilt : builtFrom (argCreator arg) v :=
        inject_success_built f _ K σ v s₃ { creator := argCreator arg, isSingleton := true }
          hreg0.1 (fun w hw => hreg0.2 w hw) hinj
      rw [← h2]
      refine ⟨?_, ?_⟩
      · rw [regOf_eq_of_registrations (storeInstance s₃ σ K v) s₃
          (regs_storeInstance s₃ σ K v)]
        exact h3.1
      · intro w hw
        rw [cached_storeInstance_eq s₃ σ K v] at hw
        cases hw
        exact hbuilt

/-! ### Claim theorems -/

/-- C1: for any registered (key, scope), after a successful `inject` the
instance is cached, and a second consecutive `inject` with no intervening
`destroy`/`replaceWith` returns the identical instance with the container
state unchanged — in particular the producer is not re-invoked (no fresh
allocation, no state mutation). -/
theorem inject_idempotent_singleton (f f' : Nat) (s : DIState) (t : Key) (k : String)
    (v : Value) (s₁ : DIState) (h : inject f s t k = (.ok v, s₁)) :
    inject (f' + 1) s₁ t k = (.ok v, s₁) := by
  obtain ⟨r, hreg⟩ := inject_success_reg f s t k v s₁ h
  have hregs : s₁.registrations = s.registrations := by
    have := (inject_basic f s t k).1
    rw [h] at this
    exact this
  have hreg1 : regOf s₁ k t = some r := by
    rw [regOf_eq_of_registrations s₁ s hregs]
    exact hreg
  have hv : cached s₁ k t = some v := inject_success_caches f s t k v s₁ h
  exact inject_cache_hit f' s₁ t k r v hreg1 hv

/-- C1 witness: a concrete double injection of a registered class. -/
theorem inject_idempotent_singleton_witness :
    inject 1 stA keyA globalIdentifier = (.ok vA, stA1) ∧
    inject 1 stA1 keyA globalIdentifier = (.ok vA, stA1) :=
  ⟨rfl, inject_idempotent_singleton 1 0 stA keyA globalIdentifier vA stA1 rfl⟩

/-- C2: `inject` on a (key, scope) with no registration throws
synchronously, with the exact message built from the key's display name
and the scope string, and leaves the state untouched. -/
theorem inject_not_found (f : Nat) (s : DIState) (t : Key) (k : String)
    (h : regOf s k t = none) :
    inject (f + 1) s t k =
      (.error (.notFound ("Dependency not found for type: " ++ t.name ++
        " in key: " ++ k)), s) := by
  rw [inject_succ]
  unfold injectStep
  rw [h]

/-- C2 witness: the default-scope message for an unregistered key `X` is
exactly the literal string from the spec. -/
theorem inject_not_found_witness :
    regOf emptyState globalIdentifier keyX = none ∧
    inject 1 emptyState keyX globalIdentifier =
      (.error (.notFound "Dependency not found for type: X in key: #global#"),
        emptyState) :=
  ⟨rfl, inject_not_found 0 emptyState keyX globalIdentifier rfl⟩

/-- C3 counterexample: in a state whose cache holds an entry for
(keyA, default scope) but whose registry has no registration for it,
`inject` throws NotFound instead of returning the cached entry — the
registry lookup comes first, so the claim as stated is false. -/
theorem inject_cache_not_before_registry_cex :
    cached c3state globalIdentifier keyA = some vA ∧
    inject 1 c3state keyA globalIdentifier =
      (.error (.notFound "Dependency not found for type: A in key: #global#"),
        c3state) :=
  ⟨rfl, rfl⟩

/-- C3 amended: the registry is consulted before the cache.  When a
registration exists, a cached entry is returned immediately and unchanged
(no re-construction); when no registration exists, `inject` throws
NotFound even though a cached entry is present. -/
theorem inject_registry_then_cache (f : Nat) (s : DIState) (t : Key)
    (k : String) (v : Value) (hv : cached s k t = some v) :
    (∀ r, regOf s k t = some r → inject (f + 1) s t k = (.ok v, s)) ∧
    (regOf s k t = none → inject (f + 1) s t k =
      (.error (.notFound ("Dependency not found for type: " ++ t.name ++
        " in key: " ++ k)), s)) := by
  constructor
  · intro r hr
    exact inject_cache_hit f s t k r v hr hv
  · intro hr
    exact inject_not_found f s t k hr

/-- C3 amended witness: a registered and cached slot is served from the
cache unchanged. -/
theorem inject_registry_then_cache_witness :
    cached stA1 globalIdentifier keyA = some vA ∧
    inject 1 stA1 keyA globalIdentifier = (.ok vA, stA1) :=
  ⟨rfl, (inject_registry_then_cache 0 stA1 keyA globalIdentifier vA rfl).1
    { creator := creatorOf clsA, isSingleton := true } rfl⟩

/-- C4 counterexample: `clsC` declares an explicit override `""` for its
parameter, and its dependency D is registered under scope `""`, yet
resolving under ambient scope "a" ignores the declared override (the
lookup uses the falsy `||` operator) and fails with NotFound in scope
"a". -/
theorem scope_override_empty_cex :
    alistGet clsC.overrides 0 = some "" ∧
    regOf st4 "" keyD = some { creator := creatorOf clsD, isSingleton := false } ∧
    (inject 3 st4 keyC "a").1 =
      .error (.notFound "Dependency not found for type: D in key: a") :=
  ⟨rfl, rfl, rfl⟩

/-- C4 amended: a declared *non-empty* per-parameter override `τ` is
honored regardless of the ambient scope: the dependency is resolved by a
recursive `inject` against scope `τ`, its instance ends up cached at
(D, τ), and it is the constructor argument of the outer instance.  (An
empty-string override is falsy and falls back to the ambient scope.) -/
theorem scope_override_nonempty (f : Nat) (s : DIState) (C D : Key) (σ τ : String)
    (r : Registration) (cid : Nat) (v : Value) (s' : DIState)
    (hreg : regOf s σ C = some r)
    (hparams : r.creator.params = [D])
    (hov : r.creator.overrides = [(0, τ)])
    (hτ : τ ≠ "")
    (hkind : r.creator.kind = CreatorKind.ctor cid)
    (hmiss : cached s σ C = none)
    (hne : (D, τ) ≠ (C, σ))
    (h : inject (f + 1) s C σ = (.ok v, s')) :
    ∃ d sd, inject f (ensureBucket s σ) D τ = (.ok d, sd) ∧
      cached s' τ D = some d ∧ v = Value.obj sd.fresh cid [d] := by
  have hds : depSlots r.creator σ = [(D, τ)] := by
    unfold depSlots
    rw [hparams, hov]
    simp [List.enum, List.enumFrom, effScope, alistGet, hτ]
  rw [inject_succ] at h
  unfold injectStep at h
  rw [hreg] at h
  simp only at h
  have hcm : cached (ensureBucket s σ) σ C = none := by
    rw [cached_ensureBucket]; exact hmiss
  rw [hcm] at h
  simp only at h
  rw [hds] at h
  unfold resolveDeps at h
  rcases hd : inject f (ensureBucket s σ) D τ with ⟨rd, sd⟩
  rw [hd] at h
  cases rd with
  | error e => cases h
  | ok d =>
    simp only [resolveDeps] at h
    have hcon : construct sd r.creator [d] =
        (Value.obj sd.fresh cid [d], { sd with fresh := sd.fresh + 1 }) := by
      unfold construct; rw [hkind]
    rw [hcon] at h
    simp only at h
    obtain ⟨h1, h2⟩ := Prod.mk.injEq .. ▸ h
    have hv : v = Value.obj sd.fresh cid [d] := by
      cases h1; rfl
    refine ⟨d, sd, rfl, ?_, hv⟩
    have hneDC : ¬(D = C ∧ τ = σ) := by
      rintro ⟨ha, hb⟩
      exact hne (by rw [ha, hb])
    rw [← h2, cached_storeInstance_ne _ σ τ C D _ hneDC,
      cached_eq_of_singletons { sd with fresh := sd.fresh + 1 } sd rfl]
    exact inject_success_caches f (ensureBucket s σ) D τ d sd hd

/-- C4 amended witness: a class registered at scope "a" whose single
dependency carries override "b"; the dependency resolves from scope "b". -/
theorem scope_override_nonempty_witness :
    inject 2 st4b keyC "a" = (.ok v4b, s4b') ∧
    ∃ d sd, inject 1 (ensureBucket st4b "a") keyD "b" = (.ok d, sd) ∧
      cached s4b' "b" keyD = some d ∧ v4b = Value.obj sd.fresh 5 [d] :=
  ⟨rfl, scope_override_nonempty 1 st4b keyC keyD "a" "b"
    { creator := creatorOf clsCb, isSingleton := false } 5 v4b s4b'
    rfl rfl rfl (by decide) rfl rfl (by decide) rfl⟩

/-- C5: after a successful `replaceWith(K, arg, σ)` and any further run of
operations that never overwrite the registration of slot (K, σ), an
`inject(K, σ)` that returns does so with an instance built from the new
producer; no instance of the prior registration is returned. -/
theorem replace_visibility (f₀ f : Nat) (s : DIState) (K : Key) (arg : ReplaceArg)
    (σ : String) (s₁ : DIState) (ops : List Op) (v : Value) (s₂ : DIState)
    (h₁ : replaceWith f₀ s K arg σ = (.ok (), s₁))
    (h₂ : ∀ op ∈ ops, opAvoids K σ op)
    (h₃ : inject (f + 1) (runOps s₁ ops) K σ = (.ok v, s₂)) :
    builtFrom (argCreator arg) v := by
  have h4 := replaceWith_slotOK f₀ s K arg σ () s₁ h₁
  have h5 := slotOK_runOps (argCreator arg) K σ ops s₁ h₂ h4
  exact inject_success_built (f + 1) (runOps s₁ ops) K σ v s₂
    { creator := argCreator arg, isSingleton := true } h5.1
    (fun w hw => h5.2 w hw) h₃

/-- C5 witness: replace, then inject, and the result is built from the
replacement producer. -/
theorem replace_visibility_witness :
    replaceWith 2 emptyState keyA (ReplaceArg.producer clsA) globalIdentifier =
      (.ok (), st6) ∧
    inject 1 (runOps st6 []) keyA globalIdentifier = (.ok vA6, st6i) ∧
    builtFrom (argCreator (ReplaceArg.producer clsA)) vA6 :=
  ⟨rfl, rfl, replace_visibility 2 0 emptyState keyA (ReplaceArg.producer clsA)
    globalIdentifier st6 [] vA6 st6i rfl
    (fun op hop => absurd hop (List.not_mem_nil op)) rfl⟩

/-- C6 counterexample: `replaceWith` on a state whose scope has no
instance bucket returns successfully without eagerly resolving, leaving no
cache entry for the replaced slot — the claim's "always eagerly resolves"
is false. -/
theorem replace_eager_cex :
    (replaceWith 2 emptyState keyA (ReplaceArg.producer clsA) globalIdentifier).1 =
      .ok () ∧
    cached st6 globalIdentifier keyA = none :=
  ⟨rfl, rfl⟩

/-- C6 amended: `replaceWith` eagerly resolves and caches the new
registration only when the scope's instance bucket still exists after the
destroy step — in particular whenever some other key stays cached in that
scope; the cached entry is then built from the new producer. -/
theorem replace_eager_conditional (f : Nat) (s : DIState) (K K' : Key)
    (arg : ReplaceArg) (σ : String) (w : Value) (u : Unit) (s₁ : DIState)
    (hK : K' ≠ K) (hw : cached s σ K' = some w)
    (h : replaceWith f s K arg σ = (.ok u, s₁)) :
    ∃ v, cached s₁ σ K = some v ∧ builtFrom (argCreator arg) v := by
  have hslot := replaceWith_slotOK f s K arg σ u s₁ h
  unfold replaceWith at h
  simp only at h
  have hKne : ¬(K' = K ∧ σ = σ) := fun hp => hK hp.1
  have hdw : cached (destroy s K σ) σ K' = some w := by
    rw [cached_destroy_ne s K K' σ σ hKne]; exact hw
  obtain ⟨m, hm⟩ := bucket_exists_of_cached (destroy s K σ) σ K' w hdw
  have hm2 : alistGet (registerCreator (destroy s K σ) K (argCreator arg) σ
      true).singletons σ = some m := by
    rw [singletons_registerCreator]; exact hm
  rw [hm2] at h
  simp only at h
  rcases hinj : inject f (registerCreator (destroy s K σ) K (argCreator arg) σ true) K σ
    with ⟨ri, s₃⟩
  rw [hinj] at h
  cases ri with
  | error e => cases h
  | ok v =>
    simp only at h
    obtain ⟨h1, h2⟩ := Prod.mk.injEq .. ▸ h
    have hv : cached s₁ σ K = some v := by
      rw [← h2]; exact cached_storeInstance_eq s₃ σ K v
    exact ⟨v, hv, hslot.2 v hv⟩

/-- C6 amended witness: with another key cached in the scope, the bucket
survives the destroy and the replaced slot is eagerly cached. -/
theorem replace_eager_conditional_witness :
    cached stB6 globalIdentifier keyB = some vB0g ∧
    replaceWith 2 stB6 keyA (ReplaceArg.producer clsA) globalIdentifier =
      (.ok (), st6b) ∧
    ∃ v, cached st6b globalIdentifier keyA = some v ∧
      builtFrom (argCreator (ReplaceArg.producer clsA)) v :=
  ⟨rfl, rfl, replace_eager_conditional 2 stB6 keyA keyB
    (ReplaceArg.producer clsA) globalIdentifier vB0g () st6b (by decide) rfl rfl⟩

/-- C7 counterexample: `replaceWith` at the non-default scope "one" stores
`isSingleton = true`, so "true iff the scope equals the default scope"
fails for registrations stored by `replaceWith`. -/
theorem isSingleton_replace_cex :
    regOf st7 "one" keyA = some { creator := creatorOf clsB, isSingleton := true } ∧
    "one" ≠ globalIdentifier :=
  ⟨rfl, by decide⟩

/-- C7 amended: `Service` and `ServiceFor` store
`isSingleton = (scope == "#global#")`, while `replaceWith` always stores
`isSingleton = true` regardless of the scope. -/
theorem isSingleton_flag (s : DIState) (cls : ConcreteClass) (t : Key)
    (arg : ReplaceArg) (k : String) (f : Nat) :
    regOf (Service s cls k) k cls.key =
      some { creator := creatorOf cls, isSingleton := k == globalIdentifier } ∧
    regOf (ServiceFor s t cls k) k t =
      some { creator := creatorOf cls, isSingleton := k == globalIdentifier } ∧
    regOf (replaceWith f s t arg k).2 k t =
      some { creator := argCreator arg, isSingleton := true } := by
  refine ⟨regOf_registerCreator_eq s cls.key (creatorOf cls) k (k == globalIdentifier),
    regOf_registerCreator_eq s t (creatorOf cls) k (k == globalIdentifier), ?_⟩
  unfold replaceWith
  simp only
  cases hb : alistGet (registerCreator (destroy s t k) t (argCreator arg) k
      true).singletons k with
  | none =>
    exact regOf_registerCreator_eq (destroy s t k) t (argCreator arg) k true
  | some m =>
    simp only
    rcases hinj : inject f (registerCreator (destroy s t k) t (argCreator arg) k true) t k
      with ⟨ri, s₃⟩
    have hr3 : regOf s₃ k t = some { creator := argCreator arg, isSingleton := true } := by
      have h1 := (inject_basic f (registerCreator (destroy s t k) t (argCreator arg) k
        true) t k).1
      rw [hinj] at h1
      rw [regOf_eq_of_registrations s₃ _ h1]
      exact regOf_registerCreator_eq (destroy s t k) t (argCreator arg) k true
    cases ri with
    | error e => exact hr3
    | ok v =>
      simp only
      rw [regOf_eq_of_registrations (storeInstance s₃ k t v) s₃
        (regs_storeInstance s₃ k t v)]
      exact hr3

/-- C8: a failing `inject` leaves the cache entry of the failing
(key, scope) exactly as it was (in particular it creates none), while
every entry cached before the attempt — and hence every transitive
dependency successfully resolved and cached along the way — survives
unchanged: nothing is rolled back. -/
theorem inject_error_cache_frame (f : Nat) (s : DIState) (t : Key) (k : String)
    (e : DIError) (s₁ : DIState) (h : inject f s t k = (.error e, s₁)) :
    cached s₁ k t = cached s k t ∧
    ∀ k' t' v, cached s k' t' = some v → cached s₁ k' t' = some v := by
  have hmono : ∀ k' t' v, cached s k' t' = some v → cached s₁ k' t' = some v := by
    intro k' t' v hv
    have := (inject_basic f s t k).2.2 k' t' v hv
    rw [h] at this
    exact this
  refine ⟨?_, hmono⟩
  cases hc : cached s k t with
  | some v => exact hmono k t v hc
  | none =>
    have hm := main_chain f s.registrations [] s t k (.error e) s₁ rfl trivial
      (fun X hX => absurd hX (List.not_mem_nil X)) h
    exact hm.2.2 e rfl hc

/-- C8 witness: a failing resolution (P depends on registered A and
unregistered X) leaves P uncached but keeps the transitively resolved A
cached. -/
theorem inject_error_cache_frame_witness :
    inject 2 stP keyP globalIdentifier =
      (.error (.notFound "Dependency not found for type: X in key: #global#"),
        c8s1) ∧
    cached c8s1 globalIdentifier keyP = cached stP globalIdentifier keyP ∧
    cached c8s1 globalIdentifier keyA = some vA :=
  ⟨rfl, (inject_error_cache_frame 2 stP keyP globalIdentifier
    (.notFound "Dependency not found for type: X in key: #global#") c8s1 rfl).1, rfl⟩

/-- C9: `destroy` leaves the registry untouched, evicts exactly the one
cache entry of its (key, scope) slot, keeps every other cache entry of
every scope, and a subsequent `inject` of a constructor-registered slot
returns a freshly allocated instance (new serial, hence distinct from the
destroyed one) built by re-running the registered constructor. -/
theorem destroy_frame (s : DIState) (t : Key) (k : String) :
    (destroy s t k).registrations = s.registrations ∧
    cached (destroy s t k) k t = none ∧
    (∀ t' k', ¬(t' = t ∧ k' = k) → cached (destroy s t k) k' t' = cached s k' t') ∧
    (∀ (f : Nat) (r : Registration) (cid : Nat) (w v : Value) (s₁ : DIState),
      regOf s k t = some r → r.creator.kind = CreatorKind.ctor cid →
      cached s k t = some w → w.serial < s.fresh →
      inject (f + 1) (destroy s t k) t k = (.ok v, s₁) →
      (∃ m args, v = Value.obj m cid args ∧ s.fresh ≤ m) ∧ v ≠ w) := by
  refine ⟨regs_destroy s t k, cached_destroy_self s t k,
    fun t' k' hne => cached_destroy_ne s t t' k k' hne, ?_⟩
  intro f r cid w v s₁ hreg hkind hw hwser h
  have hregd : regOf (destroy s t k) k t = some r := by
    rw [regOf_eq_of_registrations (destroy s t k) s (regs_destroy s t k)]
    exact hreg
  rw [inject_succ] at h
  unfold injectStep at h
  rw [hregd] at h
  simp only at h
  have hcd : cached (ensureBucket (destroy s t k) k) k t = none := by
    rw [cached_ensureBucket]; exact cached_destroy_self s t k
  rw [hcd] at h
  simp only at h
  rcases hr : resolveDeps (inject f) (ensureBucket (destroy s t k) k)
    (depSlots r.creator k) with ⟨dr, s₂⟩
  rw [hr] at h
  cases dr with
  | error e => cases h
  | ok vs =>
    simp only at h
    have hcon : construct s₂ r.creator vs =
        (Value.obj s₂.fresh cid vs, { s₂ with fresh := s₂.fresh + 1 }) := by
      unfold construct; rw [hkind]
    rw [hcon] at h
    simp only at h
    obtain ⟨h1, h2⟩ := Prod.mk.injEq .. ▸ h
    have hv : v = Value.obj s₂.fresh cid vs := by cases h1; rfl
    have hfresh : s.fresh ≤ s₂.fresh := by
      have hb := (resolveDeps_basic (inject f) (inject_basic f) (depSlots r.creator k)
        (ensureBucket (destroy s t k) k)).2.1
      rw [hr] at hb
      calc s.fresh = (destroy s t k).fresh := (fresh_destroy s t k).symm
        _ = (ensureBucket (destroy s t k) k).fresh := (fresh_ensureBucket _ k).symm
        _ ≤ s₂.fresh := hb
    refine ⟨⟨s₂.fresh, vs, hv, hfresh⟩, ?_⟩
    intro hvw
    have hws : w.serial = s₂.fresh := by rw [← hvw, hv]; rfl
    omega

/-- C9 witness: destroy then re-inject yields a fresh, distinct instance;
registry and unrelated cache slots are untouched. -/
theorem destroy_frame_witness :
    (destroy stBsc1 keyB "sc").registrations = stBsc1.registrations ∧
    cached (destroy stBsc1 keyB "sc") "sc" keyB = none ∧
    cached (destroy stBsc1 keyB "sc") "other" keyA = cached stBsc1 "other" keyA ∧
    inject 1 (destroy stBsc1 keyB "sc") keyB "sc" = (.ok vB1, stBsc2) ∧
    vB1 ≠ vB0 :=
  ⟨(destroy_frame stBsc1 keyB "sc").1,
   (destroy_frame stBsc1 keyB "sc").2.1,
   (destroy_frame stBsc1 keyB "sc").2.2.1 keyA "other" (by decide),
   rfl,
   ((destroy_frame stBsc1 keyB "sc").2.2.2 0
     { creator := creatorOf clsB, isSingleton := false } 2 vB0 vB1 stBsc2
     rfl rfl rfl (by decide) rfl).2⟩

/-- C10 counterexample: on a state whose scope "s" has an (empty) cache
bucket and no entry for the key, `destroy` is not a no-op: it prunes the
empty bucket and changes the state. -/
theorem destroy_empty_bucket_cex :
    cached s10state "s" keyA = none ∧ destroy s10state keyA "s" ≠ s10state := by
  refine ⟨rfl, ?_⟩
  intro h
  have h2 : (destroy s10state keyA "s").singletons = [] := rfl
  rw [h] at h2
  exact absurd h2 (by simp [s10state])

/-- C10 amended: `destroy` is total and idempotent; it is a no-op when the
scope has no cache bucket, and also when the key has no entry and the
bucket is nonempty; but when the bucket exists and the deletion leaves it
empty (in particular an already-empty bucket), the bucket itself is
pruned. -/
theorem destroy_total_idempotent (s : DIState) (t : Key) (k : String) :
    destroy (destroy s t k) t k = destroy s t k ∧
    (alistGet s.singletons k = none → destroy s t k = s) ∧
    (∀ m, alistGet s.singletons k = some m → alistGet m t = none → m ≠ [] →
      destroy s t k = s) ∧
    (alistGet s.singletons k = some [] →
      destroy s t k = { s with singletons := alistDelete s.singletons k }) := by
  have hnb : ∀ (s' : DIState), alistGet s'.singletons k = none → destroy s' t k = s' := by
    intro s' h
    unfold destroy
    rw [h]
  have hprune : ∀ (s' : DIState) m, alistGet s'.singletons k = some m →
      (alistDelete m t).length < 1 →
      destroy s' t k = { s' with singletons := alistDelete s'.singletons k } := by
    intro s' m h hlen
    unfold destroy
    rw [h]
    simp only [if_pos hlen]
  have hset : ∀ (s' : DIState) m, alistGet s'.singletons k = some m →
      ¬((alistDelete m t).length < 1) →
      destroy s' t k = { s' with singletons := alistSet s'.singletons k (alistDelete m t) } := by
    intro s' m h hlen
    unfold destroy
    rw [h]
    simp only [if_neg hlen]
  refine ⟨?_, hnb s, ?_, ?_⟩
  · cases hb : alistGet s.singletons k with
    | none => rw [hnb s hb, hnb s hb]
    | some m =>
      by_cases hlen : (alistDelete m t).length < 1
      · rw [hprune s m hb hlen]
        apply hnb
        exact alistGet_delete_self s.singletons k
      · rw [hset s m hb hlen]
        have hget : alistGet (alistSet s.singletons k (alistDelete m t)) k =
            some (alistDelete m t) := alistGet_set_eq s.singletons k (alistDelete m t)
        have hdel : alistDelete (alistDelete m t) t = alistDelete m t :=
          alistDelete_of_get_none (alistDelete m t) t (alistGet_delete_self m t)
        rw [hset _ (alistDelete m t) hget (by rw [hdel]; exact hlen)]
        congr 1
        rw [hdel]
        exact alistSet_alistSet s.singletons k (alistDelete m t) (alistDelete m t)
  · intro m hm ht hne
    have hdel : alistDelete m t = m := alistDelete_of_get_none m t ht
    have hlen : ¬((alistDelete m t).length < 1) := by
      rw [hdel]
      cases m with
      | nil => exact absurd rfl hne
      | cons a l => simp
    rw [hset s m hm hlen]
    have : alistSet s.singletons k (alistDelete m t) = s.singletons := by
      rw [hdel]
      exact alistSet_get_self s.singletons k m hm
    rw [this]
  · intro h
    have hlen : (alistDelete ([] : List (Key × Value)) t).length < 1 := by
      simp [alistDelete]
    exact hprune s [] h hlen

/-- C10 amended witness: idempotence on the empty-bucket state, the no-op
case on a missing bucket, and the pruning case on the empty bucket. -/
theorem destroy_total_idempotent_witness :
    destroy (destroy s10state keyA "s") keyA "s" = destroy s10state keyA "s" ∧
    destroy stA1 keyA "nosuch" = stA1 ∧
    destroy s10state keyA "s" =
      { s10state with singletons := alistDelete s10state.singletons "s" } :=
  ⟨(destroy_total_idempotent s10state keyA "s").1,
   (destroy_total_idempotent stA1 keyA "nosuch").2.1 rfl,
   (destroy_total_idempotent s10state keyA "s").2.2.2 rfl⟩
